import Mathlib

/-!
Verification of the Telegram movie-search bot (`src/bot.js`) against its
natural-language specification.  The bot's handlers are embedded shallowly:
the MongoDB collections become lists inside a `BotState`, each handler
becomes a pure function `BotState → BotState × BotReply`, and the pure
filename normalizer is translated character by character.
-/

namespace MovieBot

/-- A published catalog record (`FileSchema`, bot.js 50-61).
`uploaded_at` carries no information the claims need and is omitted;
creation order is the list order of `files`. -/
structure FileRecord where
  customId : String
  file_id : String
  file_name : String
  type : String
  uploader_id : String
  downloads : Nat
  file_size : String
  clean_title : String
  attributes : List String
deriving DecidableEq

/-- A pending upload (`PendingSchema`, bot.js 66-77); `pid` models the
Mongo `_id`. -/
structure PendingUpload where
  pid : Nat
  adminId : String
  chatId : String
  messageId : Nat
  file_id : String
  file_name : String
  type : String
  clean_title : String
  attributes : List String
  file_size : String
deriving DecidableEq

/-- A per-user per-day download counter (`LimitSchema`, bot.js 64). -/
structure LimitRecord where
  userId : String
  date : String
  count : Nat
deriving DecidableEq

/-- A favorites entry (`FavoriteSchema`, bot.js 65). -/
structure FavoriteRecord where
  userId : String
  customId : String
deriving DecidableEq

/-- The durable state the handlers read and write: the `File`, `Counter`
(single counter named "file", 0 when the document is absent), `Limit`,
`Favorite` and `Pending` collections. -/
structure BotState where
  files : List FileRecord
  counter : Nat
  limits : List LimitRecord
  favorites : List FavoriteRecord
  pendings : List PendingUpload
deriving DecidableEq

/-- The empty database: no documents, counter document absent. -/
def initState : BotState :=
  { files := [], counter := 0, limits := [], favorites := [], pendings := [] }

/-- Decimal digit character, as produced by JS `String(n)`. -/
def digitChar (d : Nat) : Char := Char.ofNat (48 + d)

/-- Decimal digits of `n` prepended to `acc` (most significant first). -/
def natDecAux : Nat → List Char → List Char
  | 0, acc => acc
  | n + 1, acc => natDecAux ((n + 1) / 10) (digitChar ((n + 1) % 10) :: acc)
decreasing_by exact Nat.div_lt_self (Nat.succ_pos n) (by decide)

/-- JS `String(n)` for a natural number: its decimal representation. -/
def natDec (n : Nat) : List Char := if n = 0 then ['0'] else natDecAux n []

/-- JS `String(n).padStart(4, '0')` (bot.js 104). -/
def padSeq (n : Nat) : List Char :=
  List.replicate (4 - (natDec n).length) '0' ++ natDec n

/-- The catalog id produced for sequence value `n`: `'F' + padded n`
(bot.js 104). -/
def seqId (n : Nat) : String := String.mk ('F' :: padSeq n)

/-- `nextSequence` (bot.js 98-105): atomic `$inc`-and-read upsert on the
counter document.  Starting from an absent document (`counter = 0`) the
first call yields sequence value 1 / id `F0001`. -/
def nextSequence (s : BotState) : String × BotState :=
  (seqId (s.counter + 1), { s with counter := s.counter + 1 })

/-- `getUserLimitCount` (bot.js 117-121): today's count, 0 if no record. -/
def getUserLimitCount (s : BotState) (userId today : String) : Nat :=
  match s.limits.find? (fun r => r.userId == userId && r.date == today) with
  | some r => r.count
  | none => 0

/-- The state effect of `incrementAndGetLimit` (bot.js 107-115): atomic
upsert-and-increment of today's record. -/
def incrementLimit (s : BotState) (userId today : String) : BotState :=
  if s.limits.any (fun r => r.userId == userId && r.date == today) then
    { s with limits := s.limits.map (fun r =>
        if r.userId == userId && r.date == today then
          { r with count := r.count + 1 }
        else r) }
  else
    { s with limits := s.limits ++ [{ userId := userId, date := today, count := 1 }] }

/-- The user-visible outcome of one handler invocation. -/
inductive BotReply where
  | expired
  | duplicateFile
  | published (customId : String)
  | cancelled
  | fileNotFound
  | quotaExceeded
  | delivered (file_id : String)
  | deliveryError
  | favAdded
  | favRemoved
  | favoritesFull
  | joinPrompt
  | deleted (customId : String)
  | deleteNotFound
  | pendingCreated (pid : Nat)
  | ignored
deriving DecidableEq

/-- The `CONFIRM:<pendingId>` branch of the callback handler
(bot.js 542-572): look up the pending entry; if gone, report expired; if a
catalog record with the same `file_id` exists, delete the pending entry
and report the duplicate without creating anything; otherwise draw a new
catalog id, insert the record and delete the pending entry. -/
def confirmPending (s : BotState) (pendingId : Nat) : BotState × BotReply :=
  match s.pendings.find? (fun p => p.pid == pendingId) with
  | none => (s, .expired)
  | some p =>
    if s.files.any (fun f => f.file_id == p.file_id) then
      ({ s with pendings := s.pendings.eraseP (fun q => q.pid == pendingId) },
       .duplicateFile)
    else
      let next := nextSequence s
      ({ next.2 with
          files := next.2.files ++
            [{ customId := next.1, file_id := p.file_id, file_name := p.file_name,
               type := p.type, uploader_id := p.adminId, downloads := 0,
               file_size := p.file_size, clean_title := p.clean_title,
               attributes := p.attributes }],
          pendings := next.2.pendings.eraseP (fun q => q.pid == pendingId) },
       .published next.1)

/-- The `CANCEL:<pendingId>` branch (bot.js 574-578): delete the pending
entry, touch nothing else. -/
def cancelPending (s : BotState) (pendingId : Nat) : BotState × BotReply :=
  ({ s with pendings := s.pendings.eraseP (fun q => q.pid == pendingId) }, .cancelled)

/-- The `GET:<id>` branch (bot.js 580-602) and, identically structured,
the search-by-ID branch of the message handler (bot.js 453-479): look up
the file; check today's quota with a read-only peek; if allowed, increment
the quota, increment the file's download counter, then attempt delivery.
`deliveryOk` is whether the transport send succeeds; the code performs
both increments before the send, so they happen either way. -/
def handleGet (s : BotState) (fromId today : String) (dailyLimit : Nat)
    (customId : String) (deliveryOk : Bool) : BotState × BotReply :=
  match s.files.find? (fun f => f.customId == customId) with
  | none => (s, .fileNotFound)
  | some f =>
    if dailyLimit ≤ getUserLimitCount s fromId today then
      (s, .quotaExceeded)
    else
      let s1 := incrementLimit s fromId today
      let s2 := { s1 with files := s1.files.map (fun g =>
          if g.customId == f.customId then { g with downloads := g.downloads + 1 }
          else g) }
      (s2, if deliveryOk then .delivered f.file_id else .deliveryError)

/-- The `FAV:<id>` branch (bot.js 641-656): toggle.  If the pair exists,
delete it; else if the user already has 50 favorites, refuse without
mutating; else insert. -/
def toggleFavorite (s : BotState) (fromId customId : String) : BotState × BotReply :=
  if s.favorites.any (fun r => r.userId == fromId && r.customId == customId) then
    ({ s with favorites :=
        s.favorites.eraseP (fun r => r.userId == fromId && r.customId == customId) },
     .favRemoved)
  else if 50 ≤ s.favorites.countP (fun r => r.userId == fromId) then
    (s, .favoritesFull)
  else
    ({ s with favorites := s.favorites ++ [{ userId := fromId, customId := customId }] },
     .favAdded)

/-- A group-membership status as returned by the transport. -/
inductive MemberStatus where
  | creator
  | administrator
  | member
  | left
  | kicked
  | restricted
deriving DecidableEq

/-- The environment one `verifyJoin` call runs in: the optional
`FORCE_CHANNEL_ID` configuration, the cached verdict for this user (the
Redis `isMember:` key) and the outcome of the external `getChatMember`
query (`Except.error` models the call throwing). -/
structure JoinEnv where
  forceChannel : Option String
  cache : Option Bool
  queryResult : Except Unit MemberStatus

/-- `verifyJoin` (bot.js 145-183): pass if the feature is unconfigured;
pass admins; on a cache hit return the cached verdict; otherwise classify
the external query result, failing open on error. -/
def verifyJoin (admins : List String) (userId : String) (env : JoinEnv) : Bool :=
  match env.forceChannel with
  | none => true
  | some _ =>
    if admins.contains userId then true
    else
      match env.cache with
      | some v => v
      | none =>
        match env.queryResult with
        | .error _ => true
        | .ok st => st == .creator || st == .administrator || st == .member

/-- Callback data understood by the callback handler (the `PAGE:` and
`CHECK_JOIN` branches mutate no durable state and are not modelled). -/
inductive CallbackData where
  | confirm (pendingId : Nat)
  | cancel (pendingId : Nat)
  | get (customId : String)
  | fav (customId : String)

/-- The callback-query dispatcher (bot.js 518-662): every interaction is
gated only by `verifyJoin`; the `CONFIRM`/`CANCEL` branches perform no
admin or submitter check of their own. -/
def handleCallback (s : BotState) (admins : List String) (fromId today : String)
    (dailyLimit : Nat) (env : JoinEnv) (deliveryOk : Bool) (data : CallbackData) :
    BotState × BotReply :=
  if !verifyJoin admins fromId env then (s, .joinPrompt)
  else
    match data with
    | .confirm pid => confirmPending s pid
    | .cancel pid => cancelPending s pid
    | .get cid => handleGet s fromId today dailyLimit cid deliveryOk
    | .fav cid => toggleFavorite s fromId cid

/-- An incoming media attachment (`msg.video || msg.document`). -/
structure IncomingFile where
  file_id : String
  file_name : String
  file_size : Nat
deriving DecidableEq

/-- The `/delete` handler (bot.js 664-669): admin-gated; uppercases the
argument and deletes the single matching catalog record.  It touches no
other collection — in particular the counter and the favorites are left
alone. -/
def deleteFile (s : BotState) (admins : List String) (fromId rawId : String) :
    BotState × BotReply :=
  if admins.contains fromId then
    let customId := rawId.trim.toUpper
    if s.files.any (fun f => f.customId == customId) then
      ({ s with files := s.files.eraseP (fun f => f.customId == customId) },
       .deleted customId)
    else (s, .deleteNotFound)
  else (s, .ignored)

/-- JS `\w`: `[A-Za-z0-9_]`. -/
def isWordChar (c : Char) : Bool :=
  (97 ≤ c.toNat && c.toNat ≤ 122) || (65 ≤ c.toNat && c.toNat ≤ 90) ||
  (48 ≤ c.toNat && c.toNat ≤ 57) || c.toNat == 95

/-- JS `\s`: ASCII whitespace plus the Unicode space separators. -/
def isWsChar (c : Char) : Bool :=
  c.toNat == 32 || c.toNat == 9 || c.toNat == 10 || c.toNat == 11 ||
  c.toNat == 12 || c.toNat == 13 || c.toNat == 0xa0 || c.toNat == 0x1680 ||
  (0x2000 ≤ c.toNat && c.toNat ≤ 0x200a) || c.toNat == 0x2028 ||
  c.toNat == 0x2029 || c.toNat == 0x202f || c.toNat == 0x205f ||
  c.toNat == 0x3000 || c.toNat == 0xfeff

/-- The character class `[\[\]\(\)\{\}\.\;\:\~\|\,\_\-\+]` of
bot.js 189. -/
def isPunctChar (c : Char) : Bool :=
  c == '[' || c == ']' || c == '(' || c == ')' || c == '\x7b' || c == '\x7d' ||
  c == '.' || c == ';' || c == ':' || c == '~' || c == '|' || c == ',' ||
  c == '_' || c == '-' || c == '+'

/-- Whether a pattern character is a lowercase ASCII letter. -/
def isLowerAlpha (p : Char) : Bool :=
  97 ≤ p.toNat && p.toNat ≤ 122

/-- Case-insensitive match of one pattern character (`i` flag): the
pattern characters are lowercase letters or digits, and an uppercase
input letter matches its lowercase pattern. -/
def charMatchCI (pat c : Char) : Bool :=
  c == pat || (isLowerAlpha pat && c.toNat + 32 == pat.toNat)

/-- Pointwise case-insensitive match of a whole pattern. -/
def matchesCI : List Char → List Char → Bool
  | [], [] => true
  | p :: ps, c :: cs => charMatchCI p c && matchesCI ps cs
  | _, _ => false

/-- The container extensions of the anchored alternation in bot.js 187. -/
def extensions : List (List Char) :=
  [['m', 'k', 'v'], ['m', 'p', '4'], ['a', 'v', 'i'], ['m', 'o', 'v'],
   ['f', 'l', 'v'], ['w', 'm', 'v'], ['w', 'e', 'b', 'm'], ['m', '4', 'v']]

/-- Whether `l` ends with `'.'` followed by `ext`, case-insensitively. -/
def extMatches (l : List Char) (ext : List Char) : Bool :=
  ext.length + 1 ≤ l.length &&
    matchesCI ('.' :: ext) (l.drop (l.length - (ext.length + 1)))

/-- `replace(/\.(mkv|mp4|...)$/i, '')` (bot.js 187): drop one trailing
`.extension` when present. -/
def stripExtension (l : List Char) : List Char :=
  match extensions.find? (extMatches l) with
  | some ext => l.take (l.length - (ext.length + 1))
  | none => l

/-- `replace(/@\w+/g, '')` (bot.js 188): left-to-right removal of each
`@` followed by a maximal nonempty run of word characters. -/
def removeMentions : List Char → List Char
  | [] => []
  | [c] => [c]
  | c :: d :: rest =>
    if c == '@' && isWordChar d then
      removeMentions ((d :: rest).dropWhile isWordChar)
    else
      c :: removeMentions (d :: rest)
termination_by l => l.length
decreasing_by
  · exact Nat.lt_succ_of_le (List.dropWhile_suffix isWordChar).sublist.length_le
  · exact Nat.lt_succ_of_le (Nat.le_refl _)

/-- `replace(/[\[\]\(\)\{\}\.\;\:\~\|\,\_\-\+]/g, ' ')` (bot.js 189). -/
def replacePunct (l : List Char) : List Char :=
  l.map (fun c => if isPunctChar c then ' ' else c)

/-- `replace(/\s+/g, ' ')` (bot.js 190): each maximal whitespace run
becomes a single space. -/
def collapseWs : List Char → List Char
  | [] => []
  | c :: rest =>
    if isWsChar c then ' ' :: collapseWs (rest.dropWhile isWsChar)
    else c :: collapseWs rest
termination_by l => l.length
decreasing_by
  · exact Nat.lt_succ_of_le (List.dropWhile_suffix isWsChar).sublist.length_le
  · exact Nat.lt_succ_of_le (Nat.le_refl _)

/-- `.trim()` from the right (bot.js 191). -/
def trimRight (l : List Char) : List Char :=
  (l.reverse.dropWhile isWsChar).reverse

/-- `.trim()` (bot.js 191): drop whitespace at both ends. -/
def trimEnds (l : List Char) : List Char :=
  (trimRight l).dropWhile isWsChar

/-- The whole normalization pipeline of `cleanFileName` on character
lists. -/
def cleanList (l : List Char) : List Char :=
  trimEnds (collapseWs (replacePunct (removeMentions (stripExtension l))))

/-- `cleanFileName` (bot.js 185-192). -/
def cleanFileName (s : String) : String :=
  String.mk (cleanList s.data)

/-- `generateAttributes` (bot.js 194-196): lowercase, split on `' '`,
drop empty fragments. -/
def generateAttributes (s : String) : List String :=
  (s.toLower.splitOn " ").filter (fun t => t.length > 0)

/-- The admin-upload branch of the message handler (bot.js 413-445),
run for a message carrying media (`msg.video || msg.document`): the
`ADMIN_SET` check guards the creation of the pending record, and a
non-admin sender falls through to the search branch, creating no pending
entry and touching no collection modelled here.  `rawName` reproduces
`msg.caption || file.file_name || "Unknown"` with `""` as JS-falsy;
`newPid` models the fresh Mongo `_id`; `sizeLabel` stands for
`formatSize(file.file_size)`, a display string built with
floating-point formatting that no claim depends on. -/
def handleUpload (s : BotState) (admins : List String) (fromId chatId : String)
    (messageId : Nat) (isVideo : Bool) (file : IncomingFile) (caption : String)
    (newPid : Nat) (sizeLabel : String) : BotState × BotReply :=
  if admins.contains fromId then
    let rawName :=
      if caption ≠ "" then caption
      else if file.file_name ≠ "" then file.file_name
      else "Unknown"
    ({ s with pendings := s.pendings ++
        [{ pid := newPid, adminId := fromId, chatId := chatId, messageId := messageId,
           file_id := file.file_id, file_name := rawName,
           type := if isVideo then "video" else "document",
           clean_title := cleanFileName rawName,
           attributes := generateAttributes (cleanFileName rawName),
           file_size := sizeLabel }] },
     .pendingCreated newPid)
  else (s, .ignored)

/-- The `/favorites` handler (bot.js 365-392): the user's favorite
entries are looked up, then only catalog records whose `customId` occurs
among them are fetched and displayed; favorite entries pointing at ids
absent from the catalog contribute nothing. -/
def favoritesView (s : BotState) (userId : String) : List FileRecord :=
  let favs := s.favorites.filter (fun r => r.userId == userId)
  let fileIds := favs.map (fun r => r.customId)
  s.files.filter (fun f => fileIds.contains f.customId)

/-- One inbound event that can mutate durable state: a media message
(admin upload branch), a callback-query press, or a `/delete` command. -/
inductive BotOp where
  | upload (fromId chatId : String) (messageId : Nat) (isVideo : Bool)
      (file : IncomingFile) (caption : String) (newPid : Nat) (sizeLabel : String)
  | callback (fromId today : String) (env : JoinEnv) (deliveryOk : Bool)
      (data : CallbackData)
  | deleteCmd (fromId rawId : String)

/-- Dispatch one inbound event to its handler. -/
def execOp (admins : List String) (dailyLimit : Nat) (s : BotState) :
    BotOp → BotState × BotReply
  | .upload fromId chatId mid isV file cap pid sz =>
    handleUpload s admins fromId chatId mid isV file cap pid sz
  | .callback fromId today env dOk data =>
    handleCallback s admins fromId today dailyLimit env dOk data
  | .deleteCmd fromId rawId => deleteFile s admins fromId rawId

/-- The catalog id a reply publishes, if any. -/
def pubId : BotReply → Option String
  | .published cid => some cid
  | _ => none

/-- Run a whole event trace, collecting the catalog ids assigned by
successful publishes, in publish order. -/
def execTrace (admins : List String) (dailyLimit : Nat) :
    BotState → List BotOp → BotState × List String
  | s, [] => (s, [])
  | s, op :: ops =>
    let step := execOp admins dailyLimit s op
    let rest := execTrace admins dailyLimit step.1 ops
    match pubId step.2 with
    | some cid => (rest.1, cid :: rest.2)
    | none => rest

/-- The sequence values current at each successful publish of a trace
(ghost observation used to state monotonicity of the assigned ids). -/
def traceSeqs (admins : List String) (dailyLimit : Nat) :
    BotState → List BotOp → List Nat
  | _, [] => []
  | s, op :: ops =>
    let step := execOp admins dailyLimit s op
    match pubId step.2 with
    | some _ => (s.counter + 1) :: traceSeqs admins dailyLimit step.1 ops
    | none => traceSeqs admins dailyLimit step.1 ops

/-- The outcome of one `copyMessage`/`sendMessage` inside the broadcast
loop: success, or a throw whose `err.response.statusCode` is
`statusCode` (`none` when the error carries no response). -/
inductive SendOutcome where
  | ok
  | err (statusCode : Option Nat)
deriving DecidableEq

/-- The broadcast loop (bot.js 296-325) over the listed outcomes, one
per user: every user is attempted (the per-user `try`/`catch` keeps the
loop going), `success` counts deliveries, and `blocked` counts only the
failures whose status code is 403.  Returns
`(attempted, success, blocked)`. -/
def broadcastRun : List SendOutcome → Nat × Nat × Nat
  | [] => (0, 0, 0)
  | o :: rest =>
    let r := broadcastRun rest
    match o with
    | .ok => (r.1 + 1, r.2.1 + 1, r.2.2)
    | .err code =>
      if code = some 403 then (r.1 + 1, r.2.1, r.2.2 + 1)
      else (r.1 + 1, r.2.1, r.2.2)

/-- No `@` immediately followed by a word character: the `/@\w+/g` pass
can find nothing to remove. -/
def NoMention (l : List Char) : Prop :=
  List.Chain' (fun a b => ¬(a = '@' ∧ isWordChar b = true)) l

/-- No two adjacent spaces. -/
def SpacedOnce (l : List Char) : Prop :=
  List.Chain' (fun a b => ¬(a = ' ' ∧ b = ' ')) l

/-- The normal form `cleanFileName` produces: no punctuation from the
replaced class, every whitespace character is a plain space, no removable
`@`-mention, no doubled space, and no space at either end. -/
def CleanShape (l : List Char) : Prop :=
  (∀ c ∈ l, isPunctChar c = false) ∧
  (∀ c ∈ l, isWsChar c = true → c = ' ') ∧
  NoMention l ∧ SpacedOnce l ∧
  (∀ c, l.head? = some c → c ≠ ' ') ∧
  (∀ c, l.getLast? = some c → c ≠ ' ')

/-- Numeric value of a decimal digit string (proof device to invert
`padSeq`). -/
def decVal (l : List Char) : Nat :=
  l.foldl (fun a c => a * 10 + (c.toNat - 48)) 0

/-- Run a sequence of favorite toggles (user, catalogId). -/
def runToggles (s : BotState) : List (String × String) → BotState
  | [] => s
  | t :: ts => runToggles (toggleFavorite s t.1 t.2).1 ts

/-- A sample pending upload used to instantiate theorems. -/
def samplePending : PendingUpload :=
  { pid := 1, adminId := "1", chatId := "10", messageId := 5, file_id := "fid1",
    file_name := "Iron Man.mkv", type := "video", clean_title := "Iron Man",
    attributes := ["iron", "man"], file_size := "1.0 GB" }

/-- A sample catalog record used to instantiate theorems. -/
def sampleFile : FileRecord :=
  { customId := "F0001", file_id := "fid1", file_name := "Iron Man.mkv",
    type := "video", uploader_id := "1", downloads := 0, file_size := "1.0 GB",
    clean_title := "Iron Man", attributes := ["iron", "man"] }

/-- A fail-open membership environment: channel configured, cache empty,
external query throwing. -/
def failOpenEnv : JoinEnv :=
  { forceChannel := some "@ch", cache := none, queryResult := .error () }

/-- A state holding `sampleFile` with user 7's daily quota exhausted. -/
def quotaState : BotState :=
  { initState with
    files := [sampleFile]
    counter := 1
    limits := [({ userId := "7", date := "2026-10-11", count := 100 } : LimitRecord)] }

/-- A state where `samplePending` awaits review and a record with the
same `file_id` is already published. -/
def dupState : BotState :=
  { initState with files := [sampleFile], counter := 1, pendings := [samplePending] }

/-- A state where `samplePending` awaits review over an empty catalog. -/
def pendState : BotState :=
  { initState with pendings := [samplePending] }

/-- A state holding just `sampleFile`. -/
def getState : BotState :=
  { initState with files := [sampleFile], counter := 1 }

/-- Fifty distinct favorites of user 7. -/
def fullFavs : List FavoriteRecord :=
  (List.range 50).map (fun i => { userId := "7", customId := toString i })

/-- A state where user 7's favorite set is at the 50-entry bound. -/
def favFullState : BotState :=
  { initState with favorites := fullFavs }

/-- A state where user 7 has favorited the published `sampleFile`. -/
def getFavState : BotState :=
  { initState with
    files := [sampleFile]
    counter := 1
    favorites := [({ userId := "7", customId := "F0001" } : FavoriteRecord)] }

lemma incrementLimit_files (s : BotState) (u d : String) :
    (incrementLimit s u d).files = s.files := by
  unfold incrementLimit
  split <;> rfl

lemma incrementLimit_favorites (s : BotState) (u d : String) :
    (incrementLimit s u d).favorites = s.favorites := by
  unfold incrementLimit
  split <;> rfl

/-- **C6** For every download attempt by a user whose current-day quota
count has reached the daily limit, the `GET` handler blocks the action
and mutates nothing: the returned state is the input state (no quota
increment, no download-count increment) and the reply is the quota
notice, not a delivery. -/
theorem quota_exhausted_blocks (s : BotState) (fromId today : String)
    (dailyLimit : Nat) (customId : String) (deliveryOk : Bool) (f : FileRecord)
    (hf : s.files.find? (fun g => g.customId == customId) = some f)
    (hq : dailyLimit ≤ getUserLimitCount s fromId today) :
    handleGet s fromId today dailyLimit customId deliveryOk = (s, .quotaExceeded) := by
  unfold handleGet
  rw [hf]
  simp only [if_pos hq]

/-- Witness for C6 at a concrete exhausted state. -/
theorem quota_exhausted_blocks_witness :
    handleGet quotaState "7" "2026-10-11" 100 "F0001" true =
      (quotaState, .quotaExceeded) :=
  quota_exhausted_blocks quotaState "7" "2026-10-11" 100 "F0001" true sampleFile
    (by decide) (by decide)

lemma handleUpload_files (s : BotState) (admins : List String)
    (fromId chatId : String) (mid : Nat) (isV : Bool) (file : IncomingFile)
    (cap : String) (pid : Nat) (sz : String) :
    (handleUpload s admins fromId chatId mid isV file cap pid sz).1.files = s.files := by
  unfold handleUpload
  split <;> rfl

lemma cancelPending_files (s : BotState) (pid : Nat) :
    (cancelPending s pid).1.files = s.files := rfl

lemma toggleFavorite_files (s : BotState) (u cid : String) :
    (toggleFavorite s u cid).1.files = s.files := by
  unfold toggleFavorite
  split
  · rfl
  · split <;> rfl

lemma deleteFile_files_sublist (s : BotState) (admins : List String)
    (fromId rawId : String) :
    (deleteFile s admins fromId rawId).1.files.Sublist s.files := by
  unfold deleteFile
  dsimp only
  split
  · split
    · exact List.eraseP_sublist _
    · exact List.Sublist.refl _
  · exact List.Sublist.refl _

lemma handleGet_files_map (s : BotState) (fromId today : String) (L : Nat)
    (cid : String) (dOk : Bool) :
    (handleGet s fromId today L cid dOk).1.files.map (fun f => f.file_id) =
      s.files.map (fun f => f.file_id) := by
  unfold handleGet
  split
  · rfl
  · rename_i f hfind
    split
    · rfl
    · dsimp only
      simp only [incrementLimit_files, List.map_map]
      apply List.map_congr_left
      intro g _
      by_cases hcid : g.customId = f.customId <;> simp [hcid]

lemma confirmPending_dup (s : BotState) (pid : Nat) (p : PendingUpload)
    (hp : s.pendings.find? (fun q => q.pid == pid) = some p)
    (hdup : s.files.any (fun f => f.file_id == p.file_id) = true) :
    confirmPending s pid =
      ({ s with pendings := s.pendings.eraseP (fun q => q.pid == pid) },
       .duplicateFile) := by
  unfold confirmPending
  rw [hp]
  simp only [hdup, if_pos]

lemma confirm_fileIds_nodup (s : BotState) (pid : Nat)
    (h : (s.files.map (fun f => f.file_id)).Nodup) :
    ((confirmPending s pid).1.files.map (fun f => f.file_id)).Nodup := by
  unfold confirmPending
  split
  · exact h
  · rename_i p hfind
    split
    · exact h
    · rename_i hdup
      dsimp only [nextSequence]
      simp only [List.map_append, List.map_cons, List.map_nil]
      rw [List.nodup_append]
      refine ⟨h, List.nodup_singleton _, ?_⟩
      intro a ha hb
      rw [List.mem_singleton] at hb
      subst hb
      rw [List.mem_map] at ha
      obtain ⟨g, hg, hgid⟩ := ha
      rw [Bool.not_eq_true, List.any_eq_false] at hdup
      have h2 := hdup g hg
      rw [hgid] at h2
      simp at h2

/-- **C1** Confirming a pending upload whose `file_id` is already in the
catalog fails as a duplicate: the pending entry is deleted, the reply is
the duplicate notice, and the catalog is returned unchanged, so no second
record with that `file_id` is created; moreover `file_id`-uniqueness of
the catalog is preserved by every operation, so a second record with a
published `file_id` is never created over any lifetime. -/
theorem duplicate_publish_rejected :
    (∀ (s : BotState) (pid : Nat) (p : PendingUpload),
        s.pendings.find? (fun q => q.pid == pid) = some p →
        s.files.any (fun f => f.file_id == p.file_id) = true →
        confirmPending s pid =
          ({ s with pendings := s.pendings.eraseP (fun q => q.pid == pid) },
           .duplicateFile)) ∧
    (∀ (admins : List String) (dailyLimit : Nat) (s : BotState) (op : BotOp),
        (s.files.map (fun f => f.file_id)).Nodup →
        ((execOp admins dailyLimit s op).1.files.map (fun f => f.file_id)).Nodup) := by
  constructor
  · exact confirmPending_dup
  · intro admins L s op h
    cases op with
    | upload fromId chatId mid isV file cap pid sz =>
      show ((handleUpload s admins fromId chatId mid isV file cap pid sz).1.files.map
        (fun f => f.file_id)).Nodup
      rw [handleUpload_files]
      exact h
    | callback fromId today env dOk data =>
      show ((handleCallback s admins fromId today L env dOk data).1.files.map
        (fun f => f.file_id)).Nodup
      unfold handleCallback
      by_cases hv : verifyJoin admins fromId env
      · rw [if_neg (by simp [hv])]
        cases data with
        | confirm pid => exact confirm_fileIds_nodup s pid h
        | cancel pid => rw [cancelPending_files]; exact h
        | get cid => rw [handleGet_files_map]; exact h
        | fav cid => rw [toggleFavorite_files]; exact h
      · rw [if_pos (by simp [hv])]
        exact h
    | deleteCmd fromId rawId =>
      show ((deleteFile s admins fromId rawId).1.files.map
        (fun f => f.file_id)).Nodup
      exact h.sublist ((deleteFile_files_sublist s admins fromId rawId).map _)

/-- Witness for C1: confirming `samplePending` while `sampleFile` (same
`file_id`) is published discards the pending entry without touching the
catalog, and the upload operation preserves `file_id`-uniqueness there. -/
theorem duplicate_publish_rejected_witness :
    confirmPending dupState 1 =
      ({ dupState with pendings := [] }, .duplicateFile) ∧
    ((execOp ["1"] 100 dupState
        (.callback "1" "2026-10-11" failOpenEnv true (.confirm 1))).1.files.map
      (fun f => f.file_id)).Nodup := by
  constructor
  · have h := duplicate_publish_rejected.1 dupState 1 samplePending (by decide) (by decide)
    simpa using h
  · exact duplicate_publish_rejected.2 ["1"] 100 dupState
      (.callback "1" "2026-10-11" failOpenEnv true (.confirm 1)) (by decide)

lemma toggle_count_le (s : BotState) (v cid u : String)
    (h : s.favorites.countP (fun r => r.userId == u) ≤ 50) :
    (toggleFavorite s v cid).1.favorites.countP (fun r => r.userId == u) ≤ 50 := by
  unfold toggleFavorite
  split
  · exact le_trans (List.Sublist.countP_le _ (List.eraseP_sublist _)) h
  · split
    · exact h
    · rename_i hfull
      dsimp only
      rw [List.countP_append]
      by_cases huv : v = u
      · subst huv
        have h1 : List.countP (fun r => r.userId == v)
            [({ userId := v, customId := cid } : FavoriteRecord)] = 1 := by simp
        rw [h1]
        omega
      · have h1 : List.countP (fun r => r.userId == u)
            [({ userId := v, customId := cid } : FavoriteRecord)] = 0 := by
          simp [huv]
        rw [h1]
        omega

lemma runToggles_count_le (u : String) :
    ∀ (ts : List (String × String)) (s : BotState),
    s.favorites.countP (fun r => r.userId == u) ≤ 50 →
    (runToggles s ts).favorites.countP (fun r => r.userId == u) ≤ 50
  | [], _, h => h
  | t :: ts, s, h => runToggles_count_le u ts _ (toggle_count_le s t.1 t.2 u h)

/-- **C4** A user's favorite set never exceeds 50 entries under any
sequence of toggles; a toggle of an absent pair at a count of 50 or more
fails with the favorites-full notice and mutates nothing; a toggle of a
present pair deletes it and reports removal. -/
theorem favorites_bounded :
    (∀ (s : BotState) (u : String) (ts : List (String × String)),
        s.favorites.countP (fun r => r.userId == u) ≤ 50 →
        (runToggles s ts).favorites.countP (fun r => r.userId == u) ≤ 50) ∧
    (∀ (s : BotState) (u cid : String),
        s.favorites.any (fun r => r.userId == u && r.customId == cid) = false →
        50 ≤ s.favorites.countP (fun r => r.userId == u) →
        toggleFavorite s u cid = (s, .favoritesFull)) ∧
    (∀ (s : BotState) (u cid : String),
        s.favorites.any (fun r => r.userId == u && r.customId == cid) = true →
        toggleFavorite s u cid =
          ({ s with favorites :=
              s.favorites.eraseP (fun r => r.userId == u && r.customId == cid) },
           .favRemoved)) := by
  refine ⟨fun s u ts h => runToggles_count_le u ts s h, ?_, ?_⟩
  · intro s u cid habs hfull
    unfold toggleFavorite
    simp [habs, hfull]
  · intro s u cid hex
    unfold toggleFavorite
    simp [hex]

/-- Witness for C4 at the 50-entry state `favFullState`. -/
theorem favorites_bounded_witness :
    (runToggles favFullState [("7", "X")]).favorites.countP
        (fun r => r.userId == "7") ≤ 50 ∧
    toggleFavorite favFullState "7" "X" = (favFullState, .favoritesFull) ∧
    toggleFavorite favFullState "7" "0" =
      ({ favFullState with favorites := favFullState.favorites.eraseP (fun r => r.userId == "7" && r.customId == "0") },
       .favRemoved) :=
  ⟨favorites_bounded.1 favFullState "7" [("7", "X")] (by decide),
   favorites_bounded.2.1 favFullState "7" "X" (by decide) (by decide),
   favorites_bounded.2.2 favFullState "7" "0" (by decide)⟩

/-- **C7** The membership gate passes admins, passes everyone when no
channel is configured, fails open when the external query errors on a
cache miss, returns the cached verdict on a cache hit (for a non-admin
with a configured channel), and returns `false` on a fresh non-member
verdict. -/
theorem verifyJoin_gate :
    (∀ (admins : List String) (uid : String) (env : JoinEnv),
        admins.contains uid = true → verifyJoin admins uid env = true) ∧
    (∀ (admins : List String) (uid : String) (cache : Option Bool)
        (qr : Except Unit MemberStatus),
        verifyJoin admins uid
          { forceChannel := none, cache := cache, queryResult := qr } = true) ∧
    (∀ (admins : List String) (uid ch : String),
        verifyJoin admins uid
          { forceChannel := some ch, cache := none, queryResult := .error () } = true) ∧
    (∀ (admins : List String) (uid ch : String) (v : Bool)
        (qr : Except Unit MemberStatus),
        admins.contains uid = false →
        verifyJoin admins uid
          { forceChannel := some ch, cache := some v, queryResult := qr } = v) ∧
    (∀ (admins : List String) (uid ch : String) (st : MemberStatus),
        admins.contains uid = false →
        (st == .creator || st == .administrator || st == .member) = false →
        verifyJoin admins uid
          { forceChannel := some ch, cache := none, queryResult := .ok st } = false) := by
  refine ⟨?_, ?_, ?_, ?_, ?_⟩
  · intro admins uid env h
    replace h : uid ∈ admins := by simpa using h
    unfold verifyJoin
    cases env.forceChannel <;> simp [h]
  · intro admins uid cache qr
    rfl
  · intro admins uid ch
    unfold verifyJoin
    by_cases h : admins.contains uid <;> simp [h]
  · intro admins uid ch v qr h
    replace h : uid ∉ admins := by simpa using h
    unfold verifyJoin
    simp [h]
  · intro admins uid ch st h hst
    replace h : uid ∉ admins := by simpa using h
    simp only [Bool.or_eq_false_iff, beq_eq_false_iff_ne, ne_eq] at hst
    unfold verifyJoin
    simp [h, hst]

/-- Witness for C7: the four gate outcomes at concrete inputs. -/
theorem verifyJoin_gate_witness :
    verifyJoin ["1"] "1" failOpenEnv = true ∧
    verifyJoin ["1"] "2" failOpenEnv = true ∧
    verifyJoin ["1"] "2"
      { forceChannel := some "@ch", cache := some false,
        queryResult := .ok .member } = false ∧
    verifyJoin ["1"] "2"
      { forceChannel := some "@ch", cache := none,
        queryResult := .ok .left } = false :=
  ⟨verifyJoin_gate.1 ["1"] "1" failOpenEnv (by decide),
   verifyJoin_gate.2.2.1 ["1"] "2" "@ch",
   verifyJoin_gate.2.2.2.1 ["1"] "2" "@ch" false (.ok .member) (by decide),
   verifyJoin_gate.2.2.2.2 ["1"] "2" "@ch" .left (by decide) (by decide)⟩

/-- Counterexample for C9: one recipient whose send throws without a 403
status (for example a network error) is counted in neither tally, so the
reported numbers do not account for every recipient. -/
theorem broadcast_miscount :
    (broadcastRun [SendOutcome.err none]).2.1 +
      (broadcastRun [SendOutcome.err none]).2.2 ≠
    [SendOutcome.err none].length := by decide

/-- **C9 (amended)** The broadcast loop attempts delivery to every user
and never aborts early; each success is tallied, and a failure is tallied
only when its status code is 403, so the reported tallies satisfy
`success + blocked ≤ users` — with strict inequality exactly when some
failure is not a 403 (such outcomes go untallied). -/
theorem broadcast_loop_total (outs : List SendOutcome) :
    (broadcastRun outs).1 = outs.length ∧
    (broadcastRun outs).2.1 = outs.countP (fun o => o == .ok) ∧
    (broadcastRun outs).2.2 = outs.countP (fun o => o == .err (some 403)) ∧
    (broadcastRun outs).2.1 + (broadcastRun outs).2.2 ≤ outs.length := by
  induction outs with
  | nil => simp [broadcastRun]
  | cons o rest ih =>
    obtain ⟨ih1, ih2, ih3, ih4⟩ := ih
    cases o with
    | ok =>
      simp [broadcastRun, List.countP_cons, ih1, ih2, ih3]
      omega
    | err code =>
      by_cases h403 : code = some 403
      · subst h403
        simp [broadcastRun, List.countP_cons, ih1, ih2, ih3]
        omega
      · simp [broadcastRun, List.countP_cons, h403, ih1, ih2, ih3]
        omega

/-- **C10** The favorites toggle never consults the catalog: an id
absent from every catalog record is still inserted when the pair is new
and the bound allows; `/delete` removes no favorite entries; and the
`/favorites` view shows only records present in the catalog, silently
dropping dangling entries. -/
theorem dangling_favorites :
    (∀ (s : BotState) (u cid : String),
        (∀ f ∈ s.files, f.customId ≠ cid) →
        s.favorites.any (fun r => r.userId == u && r.customId == cid) = false →
        s.favorites.countP (fun r => r.userId == u) < 50 →
        toggleFavorite s u cid =
          ({ s with favorites := s.favorites ++ [{ userId := u, customId := cid }] },
           .favAdded)) ∧
    (∀ (s : BotState) (admins : List String) (fromId rawId : String),
        (deleteFile s admins fromId rawId).1.favorites = s.favorites) ∧
    (∀ (s : BotState) (u : String) (f : FileRecord),
        f ∈ favoritesView s u → f ∈ s.files) := by
  refine ⟨?_, ?_, ?_⟩
  · intro s u cid _ habs hlt
    unfold toggleFavorite
    simp [habs, Nat.not_le.mpr hlt]
  · intro s admins fromId rawId
    unfold deleteFile
    dsimp only
    split
    · split <;> rfl
    · rfl
  · intro s u f hf
    exact (List.mem_filter.1 hf).1

/-- Witness for C10: a never-published id is favorited; deleting keeps
the favorite; the view at `getFavState` yields only catalog records. -/
theorem dangling_favorites_witness :
    toggleFavorite getState "7" "ZZZZ" =
      ({ getState with favorites := [{ userId := "7", customId := "ZZZZ" }] },
       .favAdded) ∧
    (deleteFile getFavState ["1"] "1" "F0001").1.favorites =
      getFavState.favorites ∧
    sampleFile ∈ getFavState.files := by
  refine ⟨?_, ?_, ?_⟩
  · have h := dangling_favorites.1 getState "7" "ZZZZ" (by decide) (by decide) (by decide)
    simpa using h
  · exact dangling_favorites.2.1 getFavState ["1"] "1" "F0001"
  · exact dangling_favorites.2.2 getFavState "7" sampleFile (by decide)

/-- Counterexample for C2: with a configured channel, an empty cache and
a throwing membership query (the gate fails open), a non-admin caller who
is not the submitter confirms pending upload 1 and the catalog is
mutated — the `CONFIRM` branch performs no admin or submitter check. -/
theorem confirm_no_admin_check :
    (handleCallback pendState ["1"] "2" "2026-10-11" 100 failOpenEnv true
      (.confirm 1)).1.files ≠ pendState.files := by decide

/-- **C2 (amended)** The administrator check guards only submission: a
non-admin media message creates no pending record and causes no side
effect, but the `CONFIRM`/`CANCEL` callbacks are gated only by the
membership check — their outcome is identical for any two callers who
pass it, regardless of admin status or submitter identity. -/
theorem pending_actions_gating :
    (∀ (s : BotState) (admins : List String) (fromId chatId : String) (mid : Nat)
        (isV : Bool) (file : IncomingFile) (cap : String) (pid : Nat) (sz : String),
        admins.contains fromId = false →
        handleUpload s admins fromId chatId mid isV file cap pid sz = (s, .ignored)) ∧
    (∀ (s : BotState) (admins : List String) (fromId1 fromId2 today1 today2 : String)
        (L : Nat) (env1 env2 : JoinEnv) (dOk1 dOk2 : Bool) (pid : Nat),
        verifyJoin admins fromId1 env1 = true →
        verifyJoin admins fromId2 env2 = true →
        handleCallback s admins fromId1 today1 L env1 dOk1 (.confirm pid) =
          handleCallback s admins fromId2 today2 L env2 dOk2 (.confirm pid)) ∧
    (∀ (s : BotState) (admins : List String) (fromId1 fromId2 today1 today2 : String)
        (L : Nat) (env1 env2 : JoinEnv) (dOk1 dOk2 : Bool) (pid : Nat),
        verifyJoin admins fromId1 env1 = true →
        verifyJoin admins fromId2 env2 = true →
        handleCallback s admins fromId1 today1 L env1 dOk1 (.cancel pid) =
          handleCallback s admins fromId2 today2 L env2 dOk2 (.cancel pid)) := by
  refine ⟨?_, ?_, ?_⟩
  · intro s admins fromId chatId mid isV file cap pid sz h
    replace h : fromId ∉ admins := by simpa using h
    unfold handleUpload
    simp [h]
  · intro s admins fromId1 fromId2 today1 today2 L env1 env2 dOk1 dOk2 pid h1 h2
    unfold handleCallback
    rw [h1, h2]
  · intro s admins fromId1 fromId2 today1 today2 L env1 env2 dOk1 dOk2 pid h1 h2
    unfold handleCallback
    rw [h1, h2]

/-- Witness for C2 (amended): a non-admin upload is ignored, and two
different gate-passing callers confirm pending 1 with identical effect. -/
theorem pending_actions_gating_witness :
    handleUpload pendState ["1"] "2" "10" 5 true
      { file_id := "fid9", file_name := "x.mkv", file_size := 7 } "" 2 "7.0 KB" =
      (pendState, .ignored) ∧
    handleCallback pendState ["1"] "1" "2026-10-11" 100 failOpenEnv true
        (.confirm 1) =
      handleCallback pendState ["1"] "2" "2026-10-12" 100 failOpenEnv false
        (.confirm 1) ∧
    handleCallback pendState ["1"] "1" "2026-10-11" 100 failOpenEnv true
        (.cancel 1) =
      handleCallback pendState ["1"] "2" "2026-10-12" 100 failOpenEnv false
        (.cancel 1) :=
  ⟨pending_actions_gating.1 pendState ["1"] "2" "10" 5 true
      { file_id := "fid9", file_name := "x.mkv", file_size := 7 } "" 2 "7.0 KB"
      (by decide),
   pending_actions_gating.2.1 pendState ["1"] "1" "2" "2026-10-11" "2026-10-12"
      100 failOpenEnv failOpenEnv true false 1 (by decide) (by decide),
   pending_actions_gating.2.2 pendState ["1"] "1" "2" "2026-10-11" "2026-10-12"
      100 failOpenEnv failOpenEnv true false 1 (by decide) (by decide)⟩

lemma getUserLimitCount_incrementLimit (s : BotState) (u d : String) :
    getUserLimitCount (incrementLimit s u d) u d = getUserLimitCount s u d + 1 := by
  unfold getUserLimitCount incrementLimit
  by_cases h : s.limits.any (fun r => r.userId == u && r.date == d) = true
  · rw [if_pos h]
    dsimp only
    rw [List.find?_map]
    have hcomp : ((fun r : LimitRecord => r.userId == u && r.date == d) ∘
        (fun r : LimitRecord =>
          if r.userId == u && r.date == d then { r with count := r.count + 1 } else r)) =
        (fun r : LimitRecord => r.userId == u && r.date == d) := by
      funext r
      by_cases hr : (r.userId == u && r.date == d) = true
      · simp only [Function.comp_apply, if_pos hr]
      · simp only [Function.comp_apply, if_neg hr]
    rw [hcomp]
    cases hfind : s.limits.find? (fun r => r.userId == u && r.date == d) with
    | none =>
      rw [List.find?_eq_none] at hfind
      rw [List.any_eq_true] at h
      obtain ⟨r, hr, hpr⟩ := h
      exact absurd hpr (by simpa using hfind r hr)
    | some r =>
      have hpr := List.find?_some hfind
      have hpr2 : r.userId = u ∧ r.date = d := by simpa using hpr
      simp [hpr, hpr2]
  · rw [if_neg h]
    dsimp only
    rw [List.find?_append]
    have h' : ∀ x ∈ s.limits, ¬((x.userId == u && x.date == d) = true) := by
      simpa [List.any_eq_true] using h
    rw [List.find?_eq_none.2 h']
    simp [List.find?]

/-- Counterexample for C3: with quota available, a `GET` whose delivery
fails still increments the download counter — the code increments before
attempting the send, so a failed delivery does not leave `downloads`
unchanged as the claim requires. -/
theorem download_counted_despite_failure :
    (handleGet getState "7" "2026-10-11" 100 "F0001" false).2 = .deliveryError ∧
    (handleGet getState "7" "2026-10-11" 100 "F0001" false).1.files.map
        (fun f => f.downloads) ≠
      getState.files.map (fun f => f.downloads) := by decide

lemma handleGet_downloads_mono (s : BotState) (fromId today : String) (L : Nat)
    (cid : String) (dOk : Bool) :
    List.Forall₂ (fun g g' => g.downloads ≤ g'.downloads) s.files
      (handleGet s fromId today L cid dOk).1.files := by
  unfold handleGet
  split
  · exact List.forall₂_same.2 (fun x _ => Nat.le_refl _)
  · split
    · exact List.forall₂_same.2 (fun x _ => Nat.le_refl _)
    · rename_i f hfind hq
      dsimp only
      rw [incrementLimit_files]
      rw [List.forall₂_map_right_iff]
      refine List.forall₂_same.2 (fun x _ => ?_)
      by_cases hx : (x.customId == f.customId) = true
      · rw [if_pos hx]
        exact Nat.le_succ _
      · rw [if_neg hx]

/-- **C3 (amended)** The download counter never decreases on a download
action, and on an authorized `GET` (file present, quota not exhausted)
the user's quota count and the file's download count each increase by
exactly 1 *before* the delivery attempt — the increments happen whether
or not delivery succeeds; on success the file is delivered, on failure
the error notice is returned with the counters already incremented. -/
theorem download_counter_semantics :
    (∀ (s : BotState) (fromId today : String) (L : Nat) (cid : String) (dOk : Bool),
        List.Forall₂ (fun g g' => g.downloads ≤ g'.downloads) s.files
          (handleGet s fromId today L cid dOk).1.files) ∧
    (∀ (s : BotState) (fromId today : String) (L : Nat) (cid : String) (dOk : Bool)
        (f : FileRecord),
        s.files.find? (fun g => g.customId == cid) = some f →
        getUserLimitCount s fromId today < L →
        (handleGet s fromId today L cid dOk).1.files =
          s.files.map (fun g =>
            if g.customId == f.customId then { g with downloads := g.downloads + 1 }
            else g) ∧
        getUserLimitCount (handleGet s fromId today L cid dOk).1 fromId today =
          getUserLimitCount s fromId today + 1 ∧
        (handleGet s fromId today L cid dOk).2 =
          (if dOk then .delivered f.file_id else .deliveryError)) := by
  refine ⟨handleGet_downloads_mono, ?_⟩
  intro s fromId today L cid dOk f hf hq
  unfold handleGet
  rw [hf]
  dsimp only
  rw [if_neg (Nat.not_le.2 hq)]
  refine ⟨?_, ?_, rfl⟩
  · rw [incrementLimit_files]
  · exact getUserLimitCount_incrementLimit s fromId today

/-- Witness for C3 (amended) at `getState` with a failing delivery. -/
theorem download_counter_semantics_witness :
    List.Forall₂ (fun g g' => g.downloads ≤ g'.downloads) getState.files
      (handleGet getState "7" "2026-10-11" 100 "F0001" false).1.files ∧
    ((handleGet getState "7" "2026-10-11" 100 "F0001" false).1.files =
      getState.files.map (fun g =>
        if g.customId == sampleFile.customId then
          { g with downloads := g.downloads + 1 }
        else g) ∧
    getUserLimitCount (handleGet getState "7" "2026-10-11" 100 "F0001" false).1
        "7" "2026-10-11" =
      getUserLimitCount getState "7" "2026-10-11" + 1 ∧
    (handleGet getState "7" "2026-10-11" 100 "F0001" false).2 =
      (if false then .delivered sampleFile.file_id else .deliveryError)) :=
  ⟨download_counter_semantics.1 getState "7" "2026-10-11" 100 "F0001" false,
   download_counter_semantics.2 getState "7" "2026-10-11" 100 "F0001" false
     sampleFile (by decide) (by decide)⟩

lemma digitChar_toNat (d : Nat) (hd : d < 10) : (digitChar d).toNat = 48 + d := by
  interval_cases d <;> decide

lemma natDecAux_eq_append : ∀ (n : Nat) (acc : List Char),
    natDecAux n acc = natDecAux n [] ++ acc
  | 0, acc => by rw [natDecAux, natDecAux]; rfl
  | n + 1, acc => by
    rw [natDecAux, natDecAux]
    rw [natDecAux_eq_append ((n + 1) / 10) (digitChar ((n + 1) % 10) :: acc),
        natDecAux_eq_append ((n + 1) / 10) [digitChar ((n + 1) % 10)]]
    simp
termination_by n _ => n
decreasing_by all_goals exact Nat.div_lt_self (Nat.succ_pos n) (by decide)

lemma foldl_natDecAux : ∀ (n a : Nat),
    List.foldl (fun a c => a * 10 + (c.toNat - 48)) a (natDecAux n []) =
      a * 10 ^ (natDecAux n []).length + n
  | 0, a => by simp [natDecAux]
  | n + 1, a => by
    have hstep : natDecAux (n + 1) [] =
        natDecAux ((n + 1) / 10) [] ++ [digitChar ((n + 1) % 10)] := by
      rw [natDecAux, natDecAux_eq_append]
    rw [hstep, List.foldl_append, foldl_natDecAux ((n + 1) / 10) a]
    have hmod : (n + 1) % 10 < 10 := Nat.mod_lt _ (by decide)
    have hqr : 10 * ((n + 1) / 10) + (n + 1) % 10 = n + 1 := Nat.div_add_mod _ 10
    simp only [List.foldl_cons, List.foldl_nil, List.length_append,
      List.length_singleton, digitChar_toNat _ hmod]
    calc (a * 10 ^ (natDecAux ((n + 1) / 10) []).length + (n + 1) / 10) * 10 +
          (48 + (n + 1) % 10 - 48)
        = a * (10 ^ (natDecAux ((n + 1) / 10) []).length * 10) +
            (10 * ((n + 1) / 10) + (n + 1) % 10) := by ring_nf; omega
      _ = a * 10 ^ ((natDecAux ((n + 1) / 10) []).length + 1) + (n + 1) := by
          rw [hqr, pow_succ]
termination_by n _ => n
decreasing_by all_goals exact Nat.div_lt_self (Nat.succ_pos n) (by decide)

lemma decVal_natDec (n : Nat) : decVal (natDec n) = n := by
  unfold decVal natDec
  by_cases h : n = 0
  · subst h
    decide
  · rw [if_neg h]
    simpa using foldl_natDecAux n 0

lemma foldl_zeros : ∀ (k : Nat),
    List.foldl (fun a c => a * 10 + (c.toNat - 48)) 0 (List.replicate k '0') = 0
  | 0 => rfl
  | k + 1 => by
    rw [List.replicate_succ, List.foldl_cons]
    simpa using foldl_zeros k

lemma decVal_padSeq (n : Nat) : decVal (padSeq n) = n := by
  unfold padSeq
  have : decVal (List.replicate (4 - (natDec n).length) '0' ++ natDec n) =
      List.foldl (fun a c => a * 10 + (c.toNat - 48))
        (List.foldl (fun a c => a * 10 + (c.toNat - 48)) 0
          (List.replicate (4 - (natDec n).length) '0')) (natDec n) := by
    unfold decVal
    rw [List.foldl_append]
  rw [this, foldl_zeros]
  exact decVal_natDec n

lemma seqId_injective : Function.Injective seqId := by
  intro m n h
  have h2 : 'F' :: padSeq m = 'F' :: padSeq n := congrArg String.data h
  have h3 : padSeq m = padSeq n := by injection h2
  have h4 := congrArg decVal h3
  rwa [decVal_padSeq, decVal_padSeq] at h4

lemma incrementLimit_counter (s : BotState) (u d : String) :
    (incrementLimit s u d).counter = s.counter := by
  unfold incrementLimit
  split <;> rfl

lemma handleUpload_counter (s : BotState) (admins : List String)
    (fromId chatId : String) (mid : Nat) (isV : Bool) (file : IncomingFile)
    (cap : String) (pid : Nat) (sz : String) :
    (handleUpload s admins fromId chatId mid isV file cap pid sz).1.counter =
      s.counter := by
  unfold handleUpload
  split <;> rfl

lemma handleGet_counter (s : BotState) (fromId today : String) (L : Nat)
    (cid : String) (dOk : Bool) :
    (handleGet s fromId today L cid dOk).1.counter = s.counter := by
  unfold handleGet
  split
  · rfl
  · split
    · rfl
    · exact incrementLimit_counter s fromId today

lemma toggleFavorite_counter (s : BotState) (u cid : String) :
    (toggleFavorite s u cid).1.counter = s.counter := by
  unfold toggleFavorite
  split
  · rfl
  · split <;> rfl

lemma deleteFile_counter (s : BotState) (admins : List String)
    (fromId rawId : String) :
    (deleteFile s admins fromId rawId).1.counter = s.counter := by
  unfold deleteFile
  dsimp only
  split
  · split <;> rfl
  · rfl

lemma handleUpload_pubId (s : BotState) (admins : List String)
    (fromId chatId : String) (mid : Nat) (isV : Bool) (file : IncomingFile)
    (cap : String) (pid : Nat) (sz : String) :
    pubId (handleUpload s admins fromId chatId mid isV file cap pid sz).2 = none := by
  unfold handleUpload
  split <;> rfl

lemma handleGet_pubId (s : BotState) (fromId today : String) (L : Nat)
    (cid : String) (dOk : Bool) :
    pubId (handleGet s fromId today L cid dOk).2 = none := by
  unfold handleGet
  split
  · rfl
  · split
    · rfl
    · dsimp only
      split <;> rfl

lemma toggleFavorite_pubId (s : BotState) (u cid : String) :
    pubId (toggleFavorite s u cid).2 = none := by
  unfold toggleFavorite
  split
  · rfl
  · split <;> rfl

lemma deleteFile_pubId (s : BotState) (admins : List String)
    (fromId rawId : String) :
    pubId (deleteFile s admins fromId rawId).2 = none := by
  unfold deleteFile
  dsimp only
  split
  · split <;> rfl
  · rfl

lemma confirmPending_pub (s : BotState) (pid : Nat) (cid : String)
    (h : pubId (confirmPending s pid).2 = some cid) :
    cid = seqId (s.counter + 1) ∧
      (confirmPending s pid).1.counter = s.counter + 1 := by
  unfold confirmPending at h ⊢
  split at h
  · exact absurd h (by simp [pubId])
  · rename_i p hfind
    simp only [hfind]
    split at h
    · exact absurd h (by simp [pubId])
    · rename_i hdup
      rw [if_neg hdup]
      simp only [pubId, Option.some.injEq] at h
      exact ⟨h.symm, rfl⟩

lemma confirmPending_counter_le (s : BotState) (pid : Nat) :
    s.counter ≤ (confirmPending s pid).1.counter := by
  unfold confirmPending
  split
  · exact Nat.le_refl _
  · split
    · exact Nat.le_refl _
    · exact Nat.le_succ _

lemma execOp_counter_le (admins : List String) (L : Nat) (s : BotState)
    (op : BotOp) : s.counter ≤ (execOp admins L s op).1.counter := by
  cases op with
  | upload fromId chatId mid isV file cap pid sz =>
    exact Nat.le_of_eq (handleUpload_counter s admins fromId chatId mid isV
      file cap pid sz).symm
  | callback fromId today env dOk data =>
    show s.counter ≤ (handleCallback s admins fromId today L env dOk data).1.counter
    unfold handleCallback
    split
    · exact Nat.le_refl _
    · cases data with
      | confirm pid => exact confirmPending_counter_le s pid
      | cancel pid => exact Nat.le_refl _
      | get cid => exact Nat.le_of_eq (handleGet_counter s fromId today L cid dOk).symm
      | fav cid => exact Nat.le_of_eq (toggleFavorite_counter s fromId cid).symm
  | deleteCmd fromId rawId =>
    exact Nat.le_of_eq (deleteFile_counter s admins fromId rawId).symm

lemma execOp_pub (admins : List String) (L : Nat) (s : BotState) (op : BotOp)
    (cid : String) (h : pubId (execOp admins L s op).2 = some cid) :
    cid = seqId (s.counter + 1) ∧
      (execOp admins L s op).1.counter = s.counter + 1 := by
  cases op with
  | upload fromId chatId mid isV file cap pid sz =>
    rw [show (execOp admins L s (.upload fromId chatId mid isV file cap pid sz)) =
      handleUpload s admins fromId chatId mid isV file cap pid sz from rfl,
      handleUpload_pubId] at h
    exact absurd h (by simp)
  | callback fromId today env dOk data =>
    rw [show (execOp admins L s (.callback fromId today env dOk data)) =
      handleCallback s admins fromId today L env dOk data from rfl] at h ⊢
    unfold handleCallback at h ⊢
    split at h
    · exact absurd h (by simp [pubId])
    · rename_i hv
      rw [if_neg hv]
      cases data with
      | confirm pid => exact confirmPending_pub s pid cid h
      | cancel pid => exact absurd h (by simp [pubId, cancelPending])
      | get c => rw [handleGet_pubId] at h; exact absurd h (by simp)
      | fav c => rw [toggleFavorite_pubId] at h; exact absurd h (by simp)
  | deleteCmd fromId rawId =>
    rw [show (execOp admins L s (.deleteCmd fromId rawId)) =
      deleteFile s admins fromId rawId from rfl, deleteFile_pubId] at h
    exact absurd h (by simp)

lemma execTrace_ids_eq (admins : List String) (L : Nat) :
    ∀ (ops : List BotOp) (s : BotState),
    (execTrace admins L s ops).2 = (traceSeqs admins L s ops).map seqId
  | [], _ => rfl
  | op :: ops, s => by
    simp only [execTrace, traceSeqs]
    cases hr : pubId (execOp admins L s op).2 with
    | none => exact execTrace_ids_eq admins L ops _
    | some cid =>
      dsimp only [List.map_cons]
      rw [execTrace_ids_eq admins L ops _, (execOp_pub admins L s op cid hr).1]

lemma traceSeqs_bounds (admins : List String) (L : Nat) :
    ∀ (ops : List BotOp) (s : BotState),
    List.Chain' (fun a b => a < b) (traceSeqs admins L s ops) ∧
      ∀ m ∈ traceSeqs admins L s ops, s.counter < m
  | [], _ => ⟨List.chain'_nil, by simp [traceSeqs]⟩
  | op :: ops, s => by
    simp only [traceSeqs]
    cases hr : pubId (execOp admins L s op).2 with
    | none =>
      obtain ⟨hchain, hlt⟩ := traceSeqs_bounds admins L ops (execOp admins L s op).1
      refine ⟨hchain, fun m hm => Nat.lt_of_le_of_lt (execOp_counter_le admins L s op)
        (hlt m hm)⟩
    | some cid =>
      obtain ⟨hcid, hcounter⟩ := execOp_pub admins L s op cid hr
      obtain ⟨hchain, hlt⟩ := traceSeqs_bounds admins L ops (execOp admins L s op).1
      rw [hcounter] at hlt
      constructor
      · rw [List.chain'_cons']
        exact ⟨fun y hy => hlt y (List.mem_of_mem_head? hy), hchain⟩
      · intro m hm
        rcases List.mem_cons.1 hm with h | h
        · omega
        · have := hlt m h
          omega

/-- **C5** Over any event trace from the empty database, the catalog ids
assigned by successful publishes are exactly the padded images of a
strictly increasing sequence of counter values, hence pairwise distinct;
and `/delete` never decrements or resets the sequence counter, so an id
is never reused even after the record carrying it is deleted. -/
theorem catalog_ids_unique_increasing :
    (∀ (admins : List String) (L : Nat) (ops : List BotOp),
        (execTrace admins L initState ops).2 =
          (traceSeqs admins L initState ops).map seqId ∧
        List.Chain' (fun a b => a < b) (traceSeqs admins L initState ops) ∧
        (execTrace admins L initState ops).2.Nodup) ∧
    (∀ (s : BotState) (admins : List String) (fromId rawId : String),
        (deleteFile s admins fromId rawId).1.counter = s.counter) := by
  constructor
  · intro admins L ops
    have hids := execTrace_ids_eq admins L ops initState
    have hchain := (traceSeqs_bounds admins L ops initState).1
    refine ⟨hids, hchain, ?_⟩
    rw [hids]
    refine List.Nodup.map seqId_injective ?_
    have hpw : List.Pairwise (fun a b : Nat => a < b)
        (traceSeqs admins L initState ops) := List.chain'_iff_pairwise.1 hchain
    exact hpw.imp Nat.ne_of_lt
  · exact fun s admins fromId rawId => deleteFile_counter s admins fromId rawId

lemma head?_dropWhile_false (p : Char → Bool) :
    ∀ (l : List Char) (c : Char), (l.dropWhile p).head? = some c → p c = false
  | [], c => by simp [List.dropWhile]
  | d :: rest, c => by
    rw [List.dropWhile_cons]
    by_cases hd : p d
    · rw [if_pos hd]
      exact head?_dropWhile_false p rest c
    · rw [if_neg hd]
      intro h
      injection h with h2
      subst h2
      simpa using hd

lemma dropWhile_eq_self_of_head (p : Char → Bool) (l : List Char)
    (h : ∀ c, l.head? = some c → p c = false) : l.dropWhile p = l := by
  cases l with
  | nil => rfl
  | cons d rest =>
    rw [List.dropWhile_cons, if_neg (by simp [h d rfl])]

lemma chain'_suffix {α : Type} (R : α → α → Prop) {l l' : List α}
    (h : l' <:+ l) (hc : List.Chain' R l) : List.Chain' R l' := by
  obtain ⟨t, rfl⟩ := h
  exact (List.chain'_append.1 hc).2.1

lemma removeMentions_head_not_word :
    ∀ (l : List Char), (∀ c, l.head? = some c → isWordChar c = false) →
      ∀ c, (removeMentions l).head? = some c → isWordChar c = false := by
  intro l
  induction l using removeMentions.induct with
  | case1 => intro _ c h; simp [removeMentions] at h
  | case2 d => intro hl c h; rw [removeMentions] at h; exact hl c h
  | case3 c d rest h ih =>
    intro _ e he
    rw [removeMentions, if_pos h] at he
    exact ih (fun x hx => head?_dropWhile_false isWordChar (d :: rest) x hx) e he
  | case4 c d rest h ih =>
    intro hl e he
    rw [removeMentions, if_neg h] at he
    rw [List.head?_cons] at he
    injection he with he2
    subst he2
    exact hl _ rfl

lemma removeMentions_noMention : ∀ (l : List Char), NoMention (removeMentions l) := by
  intro l
  induction l using removeMentions.induct with
  | case1 => rw [removeMentions]; exact List.chain'_nil
  | case2 d => rw [removeMentions]; exact List.chain'_singleton d
  | case3 c d rest h ih => rw [removeMentions, if_pos h]; exact ih
  | case4 c d rest h ih =>
    rw [removeMentions, if_neg h]
    rw [NoMention, List.chain'_cons']
    refine ⟨?_, ih⟩
    intro y hy
    rintro ⟨hc, hw⟩
    subst hc
    have hd : isWordChar d = false := by
      by_cases hdw : isWordChar d = true
      · exact absurd (by simp [hdw]) h
      · simpa using hdw
    have : isWordChar y = false := by
      refine removeMentions_head_not_word (d :: rest) ?_ y (by simpa using hy)
      intro x hx
      rw [List.head?_cons] at hx
      injection hx with hx2
      subst hx2
      exact hd
    rw [this] at hw
    cases hw

lemma removeMentions_id : ∀ (l : List Char), NoMention l → removeMentions l = l := by
  intro l
  induction l using removeMentions.induct with
  | case1 => intro _; rw [removeMentions]
  | case2 d => intro _; rw [removeMentions]
  | case3 c d rest h ih =>
    intro hnm
    rw [Bool.and_eq_true, beq_iff_eq] at h
    obtain ⟨hc, hd⟩ := h
    subst hc
    rw [NoMention, List.chain'_cons] at hnm
    exact absurd ⟨rfl, hd⟩ hnm.1
  | case4 c d rest h ih =>
    intro hnm
    rw [removeMentions, if_neg h]
    rw [NoMention, List.chain'_cons] at hnm
    rw [ih hnm.2]

lemma replacePunct_mem (l : List Char) :
    ∀ c ∈ replacePunct l, isPunctChar c = false := by
  intro c hc
  rw [replacePunct, List.mem_map] at hc
  obtain ⟨x, _, hx⟩ := hc
  subst hx
  by_cases hp : isPunctChar x = true
  · rw [if_pos hp]
    decide
  · rw [if_neg hp]
    simpa using hp

lemma replacePunct_noMention (l : List Char) (h : NoMention l) :
    NoMention (replacePunct l) := by
  rw [replacePunct, NoMention, List.chain'_map]
  refine h.imp ?_
  intro a b hab
  rintro ⟨ha, hb⟩
  refine hab ⟨?_, ?_⟩
  · by_cases hp : isPunctChar a = true
    · rw [if_pos hp] at ha
      exact absurd ha (by decide)
    · rwa [if_neg hp] at ha
  · by_cases hp : isPunctChar b = true
    · rw [if_pos hp] at hb
      exact absurd hb (by decide)
    · rwa [if_neg hp] at hb

lemma replacePunct_id (l : List Char) (h : ∀ c ∈ l, isPunctChar c = false) :
    replacePunct l = l := by
  rw [replacePunct]
  induction l with
  | nil => rfl
  | cons c rest ih =>
    rw [List.map_cons, if_neg (by simp [h c (by simp)]),
      ih (fun x hx => h x (List.mem_cons_of_mem c hx))]

set_option maxHeartbeats 1600000 in
lemma collapseWs_ws_space : ∀ (l : List Char),
    ∀ c ∈ collapseWs l, isWsChar c = true → c = ' ' := by
  intro l
  induction l using collapseWs.induct with
  | case1 => intro c hc; rw [collapseWs] at hc; simp at hc
  | case2 c rest h ih =>
    intro e he hw
    rw [collapseWs, if_pos h, List.mem_cons] at he
    rcases he with he | he
    · exact he
    · exact ih e he hw
  | case3 c rest h ih =>
    intro e he hw
    rw [collapseWs, if_neg h, List.mem_cons] at he
    rcases he with he | he
    · subst he
      exact absurd hw (by simpa using h)
    · exact ih e he hw

lemma collapseWs_mem : ∀ (l : List Char),
    ∀ c ∈ collapseWs l, c = ' ' ∨ c ∈ l := by
  intro l
  induction l using collapseWs.induct with
  | case1 => intro c hc; rw [collapseWs] at hc; simp at hc
  | case2 c rest h ih =>
    intro e he
    rw [collapseWs, if_pos h, List.mem_cons] at he
    rcases he with he | he
    · exact Or.inl he
    · rcases ih e he with he2 | he2
      · exact Or.inl he2
      · exact Or.inr (List.mem_cons_of_mem c
          ((List.dropWhile_suffix isWsChar).sublist.subset he2))
  | case3 c rest h ih =>
    intro e he
    rw [collapseWs, if_neg h, List.mem_cons] at he
    rcases he with he | he
    · exact Or.inr (he ▸ List.mem_cons_self c rest)
    · rcases ih e he with he2 | he2
      · exact Or.inl he2
      · exact Or.inr (List.mem_cons_of_mem c he2)

lemma collapseWs_head_not_ws (l : List Char)
    (h : ∀ c, l.head? = some c → isWsChar c = false) :
    (collapseWs l).head? = l.head? := by
  cases l with
  | nil => rw [collapseWs]
  | cons d rest =>
    rw [collapseWs, if_neg (by simp [h d rfl])]
    simp

lemma collapseWs_spacedOnce : ∀ (l : List Char), SpacedOnce (collapseWs l) := by
  intro l
  induction l using collapseWs.induct with
  | case1 => rw [collapseWs]; exact List.chain'_nil
  | case2 c rest h ih =>
    rw [collapseWs, if_pos h]
    rw [SpacedOnce, List.chain'_cons']
    refine ⟨?_, ih⟩
    intro y hy
    rintro ⟨_, hy2⟩
    rw [collapseWs_head_not_ws _
      (fun x hx => head?_dropWhile_false isWsChar rest x hx)] at hy
    have := head?_dropWhile_false isWsChar rest y (by simpa using hy)
    rw [hy2] at this
    exact absurd this (by decide)
  | case3 c rest h ih =>
    rw [collapseWs, if_neg h]
    rw [SpacedOnce, List.chain'_cons']
    refine ⟨?_, ih⟩
    intro y _
    rintro ⟨hc, _⟩
    subst hc
    exact h (by decide)

lemma collapseWs_head_not_word (l : List Char)
    (h : ∀ c, l.head? = some c → isWordChar c = false) :
    ∀ c, (collapseWs l).head? = some c → isWordChar c = false := by
  cases l with
  | nil => intro c hc; rw [collapseWs] at hc; cases hc
  | cons d rest =>
    intro c hc
    by_cases hw : isWsChar d = true
    · rw [collapseWs, if_pos hw, List.head?_cons] at hc
      injection hc with hc2
      subst hc2
      decide
    · rw [collapseWs, if_neg hw, List.head?_cons] at hc
      injection hc with hc2
      subst hc2
      exact h _ rfl

lemma collapseWs_noMention : ∀ (l : List Char),
    NoMention l → NoMention (collapseWs l) := by
  intro l
  induction l using collapseWs.induct with
  | case1 => intro _; rw [collapseWs]; exact List.chain'_nil
  | case2 c rest h ih =>
    intro hnm
    rw [collapseWs, if_pos h]
    rw [NoMention, List.chain'_cons']
    have hrest : NoMention rest := List.Chain'.tail hnm
    refine ⟨?_, ih (chain'_suffix _ (List.dropWhile_suffix isWsChar) hrest)⟩
    intro y _
    rintro ⟨hsp, _⟩
    cases hsp
  | case3 c rest h ih =>
    intro hnm
    rw [collapseWs, if_neg h]
    rw [NoMention, List.chain'_cons']
    have hrest : NoMention rest := List.Chain'.tail hnm
    refine ⟨?_, ih hrest⟩
    intro y hy
    rintro ⟨hc, hw⟩
    subst hc
    have hhead : ∀ x, rest.head? = some x → isWordChar x = false := by
      intro x hx
      rw [NoMention, List.chain'_cons'] at hnm
      have := hnm.1 x (by simpa using hx)
      by_cases hxw : isWordChar x = true
      · exact absurd ⟨rfl, hxw⟩ this
      · simpa using hxw
    have := collapseWs_head_not_word rest hhead y (by simpa using hy)
    rw [hw] at this
    cases this

lemma collapseWs_id : ∀ (l : List Char),
    (∀ c ∈ l, isWsChar c = true → c = ' ') → SpacedOnce l → collapseWs l = l := by
  intro l
  induction l with
  | nil => intro _ _; rw [collapseWs]
  | cons c rest ih =>
    intro hws hsp
    have hrest := ih (fun x hx hw => hws x (List.mem_cons_of_mem c hx) hw)
      (List.Chain'.tail hsp)
    by_cases hc : isWsChar c = true
    · have hcsp : c = ' ' := hws c (by simp) hc
      subst hcsp
      rw [collapseWs, if_pos hc]
      have hdrop : rest.dropWhile isWsChar = rest := by
        refine dropWhile_eq_self_of_head isWsChar rest ?_
        intro x hx
        rw [SpacedOnce, List.chain'_cons'] at hsp
        have hnot := hsp.1 x (by simpa using hx)
        by_cases hxw : isWsChar x = true
        · have hx2 : x = ' ' := hws x (List.mem_cons_of_mem _
            (List.mem_of_mem_head? hx)) hxw
          exact absurd ⟨rfl, hx2⟩ hnot
        · simpa using hxw
      rw [hdrop, hrest]
    · rw [collapseWs, if_neg hc, hrest]

lemma trimRight_subset (l : List Char) : ∀ c ∈ trimRight l, c ∈ l := by
  intro c hc
  rw [trimRight, List.mem_reverse] at hc
  exact List.mem_reverse.1 ((List.dropWhile_suffix isWsChar).sublist.subset hc)

lemma trimEnds_subset (l : List Char) : ∀ c ∈ trimEnds l, c ∈ l := by
  intro c hc
  rw [trimEnds] at hc
  exact trimRight_subset l c ((List.dropWhile_suffix isWsChar).sublist.subset hc)

lemma trimRight_chain (R : Char → Char → Prop) {l : List Char}
    (h : List.Chain' R l) : List.Chain' R (trimRight l) := by
  rw [trimRight]
  refine List.chain'_reverse.mpr ?_
  exact chain'_suffix _ (List.dropWhile_suffix isWsChar) (List.chain'_reverse.mpr h)

lemma trimEnds_chain (R : Char → Char → Prop) {l : List Char}
    (h : List.Chain' R l) : List.Chain' R (trimEnds l) := by
  rw [trimEnds]
  exact chain'_suffix _ (List.dropWhile_suffix isWsChar) (trimRight_chain R h)

lemma trimEnds_head (l : List Char) :
    ∀ c, (trimEnds l).head? = some c → isWsChar c = false := by
  intro c hc
  rw [trimEnds] at hc
  exact head?_dropWhile_false isWsChar (trimRight l) c hc

lemma trimEnds_getLast (l : List Char) :
    ∀ c, (trimEnds l).getLast? = some c → isWsChar c = false := by
  intro c hc
  have hne : (trimEnds l) ≠ [] := by
    intro h0
    rw [h0] at hc
    cases hc
  obtain ⟨t, ht⟩ := List.dropWhile_suffix (l := trimRight l) isWsChar
  have h1 : (trimRight l).getLast? = some c := by
    rw [← ht, List.getLast?_append_of_ne_nil t ?_]
    · rw [trimEnds] at hc
      exact hc
    · rw [trimEnds] at hne
      exact hne
  rw [trimRight, List.getLast?_reverse] at h1
  exact head?_dropWhile_false isWsChar l.reverse c h1

lemma trimEnds_id (l : List Char)
    (hhead : ∀ c, l.head? = some c → isWsChar c = false)
    (hlast : ∀ c, l.getLast? = some c → isWsChar c = false) : trimEnds l = l := by
  have h1 : trimRight l = l := by
    rw [trimRight, dropWhile_eq_self_of_head isWsChar l.reverse ?_,
      List.reverse_reverse]
    intro c hc
    rw [List.head?_reverse] at hc
    exact hlast c hc
  rw [trimEnds, h1]
  exact dropWhile_eq_self_of_head isWsChar l hhead

lemma charMatchCI_dot (c : Char) (h : charMatchCI '.' c = true) : c = '.' := by
  rw [charMatchCI] at h
  rw [show isLowerAlpha '.' = false from by decide, Bool.false_and,
    Bool.or_false] at h
  exact eq_of_beq h

lemma matchesCI_cons (p : Char) (ps m : List Char)
    (h : matchesCI (p :: ps) m = true) :
    ∃ c cs, m = c :: cs ∧ charMatchCI p c = true ∧ matchesCI ps cs = true := by
  cases m with
  | nil => simp [matchesCI] at h
  | cons c cs =>
    rw [matchesCI, Bool.and_eq_true] at h
    exact ⟨c, cs, rfl, h.1, h.2⟩

lemma stripExtension_id (l : List Char) (h : '.' ∉ l) : stripExtension l = l := by
  rw [stripExtension]
  rw [show extensions.find? (extMatches l) = none from List.find?_eq_none.2 ?_]
  intro ext _ hm
  rw [extMatches, Bool.and_eq_true] at hm
  obtain ⟨-, hmatch⟩ := hm
  obtain ⟨c, cs, hdrop, hcm, -⟩ := matchesCI_cons '.' ext _ hmatch
  have hc : c = '.' := charMatchCI_dot c hcm
  subst hc
  apply h
  have hmem : ('.' : Char) ∈ List.drop (l.length - (ext.length + 1)) l := by
    rw [hdrop]
    exact List.mem_cons_self _ _
  exact List.mem_of_mem_drop hmem

lemma cleanShape_cleanList (l : List Char) : CleanShape (cleanList l) := by
  rw [cleanList]
  refine ⟨?_, ?_, ?_, ?_, ?_, ?_⟩
  · intro c hc
    have hcm := trimEnds_subset _ c hc
    rcases collapseWs_mem _ c hcm with h1 | h1
    · subst h1
      decide
    · exact replacePunct_mem _ c h1
  · intro c hc hw
    exact collapseWs_ws_space _ c (trimEnds_subset _ c hc) hw
  · exact trimEnds_chain _ (collapseWs_noMention _
      (replacePunct_noMention _ (removeMentions_noMention _)))
  · exact trimEnds_chain _ (collapseWs_spacedOnce _)
  · intro c hc hcsp
    have := trimEnds_head _ c hc
    rw [hcsp] at this
    exact absurd this (by decide)
  · intro c hc hcsp
    have := trimEnds_getLast _ c hc
    rw [hcsp] at this
    exact absurd this (by decide)

lemma cleanList_id (l : List Char) (h : CleanShape l) : cleanList l = l := by
  obtain ⟨hpunct, hws, hnm, hsp, hhead, hlast⟩ := h
  have hdot : '.' ∉ l := fun hmem => absurd (hpunct '.' hmem) (by decide)
  have hhead' : ∀ c, l.head? = some c → isWsChar c = false := by
    intro c hc
    by_cases hcw : isWsChar c = true
    · exact absurd (hws c (List.mem_of_mem_head? hc) hcw) (hhead c hc)
    · simpa using hcw
  have hlast' : ∀ c, l.getLast? = some c → isWsChar c = false := by
    intro c hc
    by_cases hcw : isWsChar c = true
    · exact absurd (hws c (List.mem_of_mem_getLast? hc) hcw) (hlast c hc)
    · simpa using hcw
  rw [cleanList, stripExtension_id l hdot, removeMentions_id l hnm,
    replacePunct_id l hpunct, collapseWs_id l hws hsp, trimEnds_id l hhead' hlast']

/-- **C8** The filename normalizer is idempotent: applying
`cleanFileName` to an already-normalized string returns it unchanged. -/
theorem cleanFileName_idempotent (s : String) :
    cleanFileName (cleanFileName s) = cleanFileName s := by
  simp only [cleanFileName]
  exact congrArg String.mk (cleanList_id _ (cleanShape_cleanList s.data))

end MovieBot
